import Mathlib

/-!
Verification of the Deribit REST client (`deribit_api.py`, class `RestClient`).

The embedding below translates the Python source into Lean:
  * `Value` models the Python values used in parameter mappings
    (strings, ints, bools, lists of strings);
  * Python `dict`s are modelled as association lists in insertion order,
    with `updateDict` / `dictUpdate` mirroring `dict.__setitem__` / `dict.update`;
  * `generate_signature` mirrors `RestClient.generate_signature`, with the
    timestamp (Python reads the clock via `time.time()`) passed explicitly;
  * SHA-256, base64 and UTF-8 encoding are implemented concretely so that
    signatures are computable;
  * `prepareRequest` / `handleResponse` / `request` mirror `RestClient.request`:
    the first stage decides whether an HTTP call is issued (and which), the
    second interprets an HTTP response (status code plus decoded JSON body);
  * the endpoint methods (`getlasttrades`, `buy`, `sell`, `orderhistory`,
    `tradehistory`, `cancelall`) are translated directly.
-/

namespace Deribit

open scoped List

/-- Python values occurring in parameter mappings of the client. -/
inductive Value where
  | str (s : String)
  | int (n : Int)
  | bool (b : Bool)
  | list (xs : List String)
deriving DecidableEq, Repr

/-- The `converter` closure of `generate_signature`:
`'='.join([str(key), ''.join(value)])` for list values, and
`'='.join([str(key), str(value)])` otherwise. -/
def converter (p : String × Value) : String :=
  match p.2 with
  | .list xs => p.1 ++ "=" ++ String.join xs
  | .str s => p.1 ++ "=" ++ s
  | .int n => p.1 ++ "=" ++ toString n
  | .bool b => p.1 ++ "=" ++ (if b then "True" else "False")

/-- Keys of an association list (a Python dict in insertion order). -/
def keys (d : List (String × Value)) : List String := d.map Prod.fst

/-- Python `d[k]` lookup (first matching entry; dicts have unique keys). -/
def alookup (k : String) : List (String × Value) → Option Value
  | [] => none
  | p :: ps => if p.1 = k then some p.2 else alookup k ps

/-- Python `d[k] = v` on a dict: overwrite in place if the key exists,
append at the end otherwise. -/
def updateDict (d : List (String × Value)) (e : String × Value) : List (String × Value) :=
  if d.any (fun p => p.1 == e.1) then d.map (fun p => if p.1 = e.1 then (p.1, e.2) else p)
  else d ++ [e]

/-- Python `d.update(ps)`. -/
def dictUpdate (d : List (String × Value)) (ps : List (String × Value)) : List (String × Value) :=
  ps.foldl updateDict d

/-- Python `'&'.join`. -/
def joinAmp : List String → String
  | [] => ""
  | [s] => s
  | s :: ss => s ++ "&" ++ joinAmp ss

/-- UTF-8 encoding of a single code point. -/
def utf8Char (c : Nat) : List Nat :=
  if c < 128 then [c]
  else if c < 2048 then [192 + c / 64, 128 + c % 64]
  else if c < 65536 then [224 + c / 4096, 128 + c / 64 % 64, 128 + c % 64]
  else [240 + c / 262144, 128 + c / 4096 % 64, 128 + c / 64 % 64, 128 + c % 64]

/-- Python `s.encode("utf-8")`, as a list of byte values. -/
def utf8Bytes (s : String) : List Nat :=
  s.data.foldr (fun c acc => utf8Char c.toNat ++ acc) []

/-! ### SHA-256 (`hashlib.sha256`) over lists of byte values -/

/-- 2^32, the word modulus of SHA-256. -/
def w32 : Nat := 4294967296

/-- Right rotation of a 32-bit word. -/
def rotr32 (n x : Nat) : Nat := (x / 2 ^ n + x % 2 ^ n * 2 ^ (32 - n)) % w32

/-- Big-endian byte decomposition: `bigEndianBytes k n` is the `k` low-order
bytes of `n`, most significant first. -/
def bigEndianBytes : Nat → Nat → List Nat
  | 0, _ => []
  | k + 1, n => bigEndianBytes k (n / 256) ++ [n % 256]

/-- SHA-256 message padding: append `0x80`, zeros, and the 64-bit big-endian
bit length, reaching a multiple of 64 bytes. -/
def padMessage (msg : List Nat) : List Nat :=
  msg ++ [128] ++ List.replicate ((64 - (msg.length + 9) % 64) % 64) 0
      ++ bigEndianBytes 8 (8 * msg.length)

/-- Split into successive 64-byte chunks. -/
def chunkify (l : List Nat) : List (List Nat) :=
  if h : l = [] then [] else l.take 64 :: chunkify (l.drop 64)
termination_by l.length
decreasing_by
  simp only [List.length_drop]
  cases l with
  | nil => exact absurd rfl h
  | cons a t => simp only [List.length_cons]; omega

/-- Group bytes into big-endian 32-bit words. -/
def toWords : List Nat → List Nat
  | b0 :: b1 :: b2 :: b3 :: rest =>
      (((b0 * 256 + b1) * 256 + b2) * 256 + b3) :: toWords rest
  | _ => []

/-- SHA-256 round constants, written in decimal. -/
def K256 : List Nat :=
  [1116352408, 1899447441, 3049323471, 3921009573, 961987163,
   1508970993, 2453635748, 2870763221, 3624381080, 310598401,
   607225278, 1426881987, 1925078388, 2162078206, 2614888103,
   3248222580, 3835390401, 4022224774, 264347078, 604807628,
   770255983, 1249150122, 1555081692, 1996064986, 2554220882,
   2821834349, 2952996808, 3210313671, 3336571891, 3584528711,
   113926993, 338241895, 666307205, 773529912, 1294757372,
   1396182291, 1695183700, 1986661051, 2177026350, 2456956037,
   2730485921, 2820302411, 3259730800, 3345764771, 3516065817,
   3600352804, 4094571909, 275423344, 430227734, 506948616,
   659060556, 883997877, 958139571, 1322822218, 1537002063,
   1747873779, 1955562222, 2024104815, 2227730452, 2361852424,
   2428436474, 2756734187, 3204031479, 3329325298]

/-- SHA-256 initial hash state, written in decimal. -/
def H256 : List Nat :=
  [1779033703, 3144134277, 1013904242, 2773480762,
   1359893119, 2600822924, 528734635, 1541459225]

/-- One step of message-schedule extension. -/
def scheduleStep (ws : List Nat) : List Nat :=
  let n := ws.length
  let s0 := fun x => (rotr32 7 x) ^^^ (rotr32 18 x) ^^^ (x / 2 ^ 3)
  let s1 := fun x => (rotr32 17 x) ^^^ (rotr32 19 x) ^^^ (x / 2 ^ 10)
  ws ++ [(s1 (ws.getD (n - 2) 0) + ws.getD (n - 7) 0
          + s0 (ws.getD (n - 15) 0) + ws.getD (n - 16) 0) % w32]

/-- Extend the 16 chunk words to the 64 schedule words. -/
def schedule (ws : List Nat) : List Nat :=
  (List.range 48).foldl (fun acc _ => scheduleStep acc) ws

/-- One round of the SHA-256 compression function. -/
def compressStep (s : List Nat) (kw : Nat × Nat) : List Nat :=
  match s with
  | [a, b, c, d, e, f, g, h] =>
    let bigS1 := (rotr32 6 e) ^^^ (rotr32 11 e) ^^^ (rotr32 25 e)
    let ch := (e &&& f) ^^^ ((e ^^^ 4294967295) &&& g)
    let temp1 := (h + bigS1 + ch + kw.1 + kw.2) % w32
    let bigS0 := (rotr32 2 a) ^^^ (rotr32 13 a) ^^^ (rotr32 22 a)
    let maj := (a &&& b) ^^^ (a &&& c) ^^^ (b &&& c)
    let temp2 := (bigS0 + maj) % w32
    [(temp1 + temp2) % w32, a, b, c, (d + temp1) % w32, e, f, g]
  | _ => s

/-- Process one 64-byte chunk, updating the hash state. -/
def processChunk (h : List Nat) (chunk : List Nat) : List Nat :=
  let s := (K256.zip (schedule (toWords chunk))).foldl compressStep h
  (h.zip s).map (fun p => (p.1 + p.2) % w32)

/-- SHA-256 digest (32 bytes) of a byte list. -/
def sha256 (msg : List Nat) : List Nat :=
  (((chunkify (padMessage msg)).foldl processChunk H256).map
    (bigEndianBytes 4)).foldr (· ++ ·) []

/-! ### Base64 (`base64.b64encode`) -/

/-- The standard base64 alphabet. -/
def b64Alphabet : String :=
  "ABCDEFGHIJKLMNOPQRSTUVWXYZabcdefghijklmnopqrstuvwxyz0123456789+/"

/-- The base64 character of a 6-bit value, as a one-character string. -/
def b64CharAt (n : Nat) : String := (b64Alphabet.drop n).take 1

/-- Standard base64 encoding with `=` padding. -/
def b64Encode : List Nat → String
  | [] => ""
  | [b0] => b64CharAt (b0 / 4) ++ b64CharAt (b0 % 4 * 16) ++ "=="
  | [b0, b1] => b64CharAt (b0 / 4) ++ b64CharAt (b0 % 4 * 16 + b1 / 16)
      ++ b64CharAt (b1 % 16 * 4) ++ "="
  | b0 :: b1 :: b2 :: rest => b64CharAt (b0 / 4) ++ b64CharAt (b0 % 4 * 16 + b1 / 16)
      ++ b64CharAt (b1 % 16 * 4 + b2 / 64) ++ b64CharAt (b2 % 64) ++ b64Encode rest

/-! ### The signature generator (`RestClient.generate_signature`) -/

/-- The initial `signature_data` dict of `generate_signature`. -/
def mkSignatureData (key secret action : String) (tstamp : Nat) : List (String × Value) :=
  [("_", .int tstamp), ("_ackey", .str key), ("_acsec", .str secret), ("_action", .str action)]

/-- Boolean key comparison used for sorting entries (`sorted(..., key=lambda t: t[0])`). -/
def keyLe (a b : String × Value) : Bool := decide (a.1 ≤ b.1)

/-- The `sorted_signature_data` of `generate_signature`: the signing dict after
`update(data)`, sorted by key. -/
def signingEntries (key secret action : String) (data : List (String × Value))
    (tstamp : Nat) : List (String × Value) :=
  (dictUpdate (mkSignatureData key secret action tstamp) data).mergeSort keyLe

/-- The `signature_string` of `generate_signature`. -/
def signingString (key secret action : String) (data : List (String × Value))
    (tstamp : Nat) : String :=
  joinAmp ((signingEntries key secret action data tstamp).map converter)

/-- `RestClient.generate_signature`, with the clock value `tstamp` explicit. -/
def generate_signature (key secret action : String) (data : List (String × Value))
    (tstamp : Nat) : String :=
  key ++ "." ++ toString tstamp ++ "."
    ++ b64Encode (sha256 (utf8Bytes (signingString key secret action data tstamp)))

/-! ### The request executor (`RestClient.request`) -/

/-- Decoded JSON values, as produced by `response.json()`. -/
inductive Json where
  | null
  | bool (b : Bool)
  | num (n : Int)
  | str (s : String)
  | arr (xs : List Json)
  | obj (fields : List (String × Json))

/-- Lookup of a field in a decoded JSON object (Python `json[k]` / `k in json`). -/
def jlookup (k : String) : List (String × Json) → Option Json
  | [] => none
  | p :: ps => if p.1 = k then some p.2 else jlookup k ps

/-- Python `v == False`: true for `False`, `0` (and `0.0`). -/
def pyEqFalse : Json → Bool
  | .bool b => !b
  | .num n => n == 0
  | _ => false

/-- The errors `RestClient.request` can raise:
`config` is `Exception("Key or secret empty")`, `transport` is
`Exception("Wrong response code: ...")`, `application` is
`Exception("Failed: ...")`, `keyErr` models Python's `KeyError` on a missing
dict key, and `typeErr` models the `TypeError` of concatenating `"Failed: "`
with a non-string `message`. -/
inductive ReqErr where
  | config (msg : String)
  | transport (msg : String)
  | application (msg : String)
  | keyErr (k : String)
  | typeErr
deriving DecidableEq, Repr

/-- The HTTP call `request` issues: method, full URL, payload, and the
`x-deribit-sig` header when present. -/
structure HttpCall where
  method : String
  url : String
  payload : List (String × Value)
  sigHeader : Option String
deriving DecidableEq, Repr

/-- Python `s.startswith(pre)`: code-point prefix test. -/
def pyStartsWith (s pre : String) : Bool := pre.data.isPrefixOf s.data

/-- First half of `RestClient.request` (lines 41-49): decide whether the call
fails with `Exception("Key or secret empty")` before any network I/O, or which
HTTP call is issued. `key`/`secret` are `none` when the Python attribute is
`None`. -/
def prepareRequest (key secret : Option String) (url action : String)
    (data : List (String × Value)) (tstamp : Nat) : Except ReqErr HttpCall :=
  if pyStartsWith action "/api/v1/private/" then
    match key, secret with
    | some k, some s =>
        .ok ⟨"POST", url ++ action, data, some (generate_signature k s action data tstamp)⟩
    | _, _ => .error (.config "Key or secret empty")
  else
    .ok ⟨"GET", url ++ action, data, none⟩

/-- Second half of `RestClient.request` (lines 51-64): interpret the HTTP
response, given its status code and decoded JSON object body. -/
def handleResponse (status : Nat) (body : List (String × Json)) : Except ReqErr Json :=
  if status ≠ 200 then
    .error (.transport ("Wrong response code: " ++ toString status))
  else
    match jlookup "success" body with
    | none => .error (.keyErr "success")
    | some sv =>
      if pyEqFalse sv then
        match jlookup "message" body with
        | none => .error (.keyErr "message")
        | some (.str m) => .error (.application ("Failed: " ++ m))
        | some _ => .error .typeErr
      else
        match jlookup "result" body with
        | some r => .ok r
        | none =>
          match jlookup "message" body with
          | some m => .ok m
          | none => .ok (.str "Ok")

/-- `RestClient.request` end to end: the pre-I/O stage followed, when an HTTP
call was issued, by interpretation of the response `(status, body)`. -/
def request (key secret : Option String) (url action : String)
    (data : List (String × Value)) (tstamp : Nat) (status : Nat)
    (body : List (String × Json)) : Except ReqErr Json :=
  match prepareRequest key secret url action data tstamp with
  | .error e => .error e
  | .ok _ => handleResponse status body

/-- Boolean success test for `Except`. -/
def isOkB : Except ReqErr HttpCall → Bool
  | .ok _ => true
  | .error _ => false

/-! ### Endpoint methods

Each returns the endpoint path and the parameter mapping passed to
`self.request`, translated directly from the Python method bodies.
Optional arguments are `none` when the Python default `None` is kept. -/

/-- `RestClient.cancelall(typeDef="all")`. -/
def cancelall (typeDef : String) : String × List (String × Value) :=
  ("/api/v1/private/cancelall", [("type", .str typeDef)])

/-- `RestClient.tradehistory(countNum=None, instrument="all", startTradeId=None)`. -/
def tradehistory (countNum : Option Int) (instrument : String)
    (startTradeId : Option Int) : String × List (String × Value) :=
  let options : List (String × Value) := [("instrument", .str instrument)]
  let options := match countNum with
    | some c => if c ≠ 0 then options ++ [("count", .int c)] else options
    | none => options
  let options := match startTradeId with
    | some s => if s ≠ 0 then options ++ [("startTradeId", .int s)] else options
    | none => options
  ("/api/v1/private/tradehistory", options)

/-! ### Auxiliary definitions used by the statements -/

/-- Rendering of one entry as described by the spec: `"<key>=<value>"`, with
list values concatenated element-wise with no separator, other values in
their plain string form. -/
def specRender (p : String × Value) : String :=
  p.1 ++ "=" ++ (match p.2 with
    | .list xs => String.join xs
    | .str s => s
    | .int n => toString n
    | .bool b => if b then "True" else "False")

/-- The merged signing mapping as described by the spec: the four fixed
entries with the caller's parameters merged in, caller values winning on key
collision. -/
def specMergedEntries (key secret action : String) (params : List (String × Value))
    (tstamp : Nat) : List (String × Value) :=
  params ++ (mkSignatureData key secret action tstamp).filter
    (fun b => !(params.any (fun p => p.1 == b.1)))

/-- The signature as described by the spec: `key + "." + decimal(tstamp) +
"." + base64(SHA-256(UTF-8 bytes of S))`, with `S` the merged entries sorted
by key lexicographically, rendered by `specRender`, and joined with `"&"`. -/
def specSignature (key secret action : String) (params : List (String × Value))
    (tstamp : Nat) : String :=
  key ++ "." ++ toString tstamp ++ "." ++ b64Encode (sha256 (utf8Bytes
    (String.intercalate "&"
      (((specMergedEntries key secret action params tstamp).mergeSort keyLe).map specRender))))

/-- Replace the value stored under key `k` by `v`, leaving other entries
unchanged (a single-point modification of a parameter mapping). -/
def substAt (k : String) (v : Value) (p : String × Value) : String × Value :=
  if p.1 = k then (p.1, v) else p

/-- The four keys of the fixed signing entries, which callers must not
supply as parameter keys. -/
def reservedKeys : List String := ["_", "_ackey", "_acsec", "_action"]

/-- The override applied to a fixed signing entry by `dict.update`:
the caller's value if the caller supplies the key, the entry otherwise. -/
def overrideBy (ps : List (String × Value)) (b : String × Value) : String × Value :=
  match alookup b.1 ps with
  | some v => (b.1, v)
  | none => b

/-- Decimal digit characters of a natural number, most significant first:
a clean recursive reformulation of `Nat.toDigits 10`, used to prove the
decimal rendering injective. -/
def decChars (n : Nat) : List Char :=
  if h : n < 10 then [Nat.digitChar n]
  else decChars (n / 10) ++ [Nat.digitChar (n % 10)]
termination_by n
decreasing_by
  omega

/-! ### Theorems -/

/-- With both credentials set, `request` never raises the configuration error:
it issues the HTTP call and interprets the response. -/
theorem request_some_eq (k s url action : String) (data : List (String × Value))
    (t status : Nat) (body : List (String × Json)) :
    request (some k) (some s) url action data t status body = handleResponse status body := by
  unfold request prepareRequest
  by_cases h : pyStartsWith action "/api/v1/private/" <;> simp [h]

/-- C8: `tradehistory()` with no arguments passes exactly
`{"instrument": "all"}` to the request executor (no `count`, no
`startTradeId` key), and `cancelall()` with no arguments passes exactly
`{"type": "all"}`. -/
theorem tradehistory_cancelall_default_params :
    tradehistory none "all" none
      = ("/api/v1/private/tradehistory", [("instrument", Value.str "all")])
    ∧ cancelall "all" = ("/api/v1/private/cancelall", [("type", Value.str "all")]) :=
  ⟨rfl, rfl⟩

/-- C1 (amended): for a private-prefixed action, if the key or the secret is
absent (`None`), the call fails with the configuration error
`Exception("Key or secret empty")` before any network I/O: `prepareRequest`
produces no `HttpCall`, and the outcome is the configuration error regardless
of any HTTP status or body. -/
theorem private_requires_credentials (key secret : Option String) (url action : String)
    (data : List (String × Value)) (t status : Nat) (body : List (String × Json))
    (hpriv : pyStartsWith action "/api/v1/private/" = true)
    (hks : key = none ∨ secret = none) :
    prepareRequest key secret url action data t = .error (.config "Key or secret empty")
    ∧ request key secret url action data t status body
        = .error (.config "Key or secret empty") := by
  have hprep : prepareRequest key secret url action data t
      = .error (.config "Key or secret empty") := by
    rcases hks with h | h
    · subst h; simp [prepareRequest, hpriv]
    · subst h; rcases key with _ | k <;> simp [prepareRequest, hpriv]
  exact ⟨hprep, by unfold request; rw [hprep]⟩

/-- Witness for `private_requires_credentials` at a concrete private action
with both credentials unset. -/
theorem private_requires_credentials_witness :
    (pyStartsWith "/api/v1/private/buy" "/api/v1/private/" = true)
    ∧ request none none "https://www.deribit.com" "/api/v1/private/buy" [] 0 200 []
        = .error (.config "Key or secret empty") :=
  ⟨by decide,
    (private_requires_credentials none none "https://www.deribit.com" "/api/v1/private/buy"
      [] 0 200 [] (by decide) (Or.inl rfl)).2⟩

/-- C1 counterexample: with key and secret set to the *empty string* (so not
both non-empty), the `is None` check passes and an HTTP call is issued — the
call does not fail with a configuration error before network I/O, and the
response is consumed as usual. -/
theorem empty_string_credentials_send_request :
    isOkB (prepareRequest (some "") (some "") "https://www.deribit.com"
      "/api/v1/private/buy" [("instrument", Value.str "BTC")] 0) = true
    ∧ request (some "") (some "") "https://www.deribit.com" "/api/v1/private/buy"
        [("instrument", Value.str "BTC")] 0 200 [("success", Json.bool true)]
        = .ok (Json.str "Ok") :=
  ⟨rfl, rfl⟩

/-- C5: a status code other than 200 makes the call fail with the transport
error carrying that status code, and the body is never interpreted: the
outcome is the same for any two bodies. -/
theorem transport_error_ignores_body (k s url action : String)
    (data : List (String × Value)) (t status : Nat)
    (body body2 : List (String × Json)) (h : status ≠ 200) :
    request (some k) (some s) url action data t status body
      = .error (.transport ("Wrong response code: " ++ toString status))
    ∧ request (some k) (some s) url action data t status body
      = request (some k) (some s) url action data t status body2 := by
  have e : ∀ b : List (String × Json),
      request (some k) (some s) url action data t status b
        = .error (.transport ("Wrong response code: " ++ toString status)) := by
    intro b
    rw [request_some_eq]
    unfold handleResponse
    simp [h]
  exact ⟨e body, (e body).trans (e body2).symm⟩

/-- Witness for `transport_error_ignores_body` at HTTP status 500. -/
theorem transport_error_ignores_body_witness :
    (500 ≠ 200)
    ∧ request (some "k") (some "s") "https://www.deribit.com" "/api/v1/public/index"
        [] 0 500 [("success", Json.bool true)]
      = .error (.transport ("Wrong response code: " ++ toString 500)) :=
  ⟨by decide,
    (transport_error_ignores_body "k" "s" "https://www.deribit.com" "/api/v1/public/index"
      [] 0 500 [("success", Json.bool true)] [] (by decide)).1⟩

/-- C4: on HTTP 200 with `success` present and equal to boolean false, the
call fails with the application error carrying the `message` field's text. -/
theorem application_error_carries_message (k s url action : String)
    (data : List (String × Value)) (t : Nat) (body : List (String × Json)) (m : String)
    (h1 : jlookup "success" body = some (Json.bool false))
    (h2 : jlookup "message" body = some (Json.str m)) :
    request (some k) (some s) url action data t 200 body
      = .error (.application ("Failed: " ++ m)) := by
  rw [request_some_eq]
  unfold handleResponse
  rw [h1]
  simp [pyEqFalse, h2]

/-- Witness for `application_error_carries_message` on the body
`{"success": false, "message": "insufficient funds"}`. -/
theorem application_error_carries_message_witness :
    (jlookup "success" [("success", Json.bool false), ("message", Json.str "insufficient funds")]
      = some (Json.bool false))
    ∧ request (some "k") (some "s") "https://www.deribit.com" "/api/v1/private/buy" [] 0 200
        [("success", Json.bool false), ("message", Json.str "insufficient funds")]
      = .error (.application ("Failed: " ++ "insufficient funds")) :=
  ⟨rfl,
    application_error_carries_message "k" "s" "https://www.deribit.com" "/api/v1/private/buy"
      [] 0 [("success", Json.bool false), ("message", Json.str "insufficient funds")]
      "insufficient funds" rfl rfl⟩

/-- C10: on HTTP 200, a body lacking the `success` field makes the call fail
with a key-lookup error (not a payload), and a body whose `success` is false
but which lacks `message` fails with a key-lookup error rather than an
application error. -/
theorem missing_field_key_errors (k s url action : String)
    (data : List (String × Value)) (t : Nat) (body : List (String × Json)) :
    (jlookup "success" body = none →
      request (some k) (some s) url action data t 200 body = .error (.keyErr "success"))
    ∧ (jlookup "success" body = some (Json.bool false) → jlookup "message" body = none →
      request (some k) (some s) url action data t 200 body = .error (.keyErr "message")) := by
  constructor
  · intro h
    rw [request_some_eq]
    unfold handleResponse
    rw [h]
    simp
  · intro h1 h2
    rw [request_some_eq]
    unfold handleResponse
    rw [h1]
    simp [pyEqFalse, h2]

/-- Witness for `missing_field_key_errors` on the bodies `{"result": 1}` and
`{"success": false}`. -/
theorem missing_field_key_errors_witness :
    request (some "k") (some "s") "https://www.deribit.com" "/api/v1/public/index" [] 0 200
      [("result", Json.num 1)] = .error (.keyErr "success")
    ∧ request (some "k") (some "s") "https://www.deribit.com" "/api/v1/public/index" [] 0 200
      [("success", Json.bool false)] = .error (.keyErr "message") :=
  ⟨(missing_field_key_errors "k" "s" "https://www.deribit.com" "/api/v1/public/index"
      [] 0 [("result", Json.num 1)]).1 rfl,
    (missing_field_key_errors "k" "s" "https://www.deribit.com" "/api/v1/public/index"
      [] 0 [("success", Json.bool false)]).2 rfl rfl⟩

/-- C3 (amended): on HTTP 200 with a successful envelope, the return value is
the `result` field if present, else the `message` field if present, else the
fixed string `"Ok"` (which is *not* distinct from every possible payload). -/
theorem success_result_message_fallback (k s url action : String)
    (data : List (String × Value)) (t : Nat) (body : List (String × Json)) (sv : Json)
    (h1 : jlookup "success" body = some sv) (h2 : pyEqFalse sv = false) :
    (∀ r, jlookup "result" body = some r →
      request (some k) (some s) url action data t 200 body = .ok r)
    ∧ (jlookup "result" body = none → ∀ m, jlookup "message" body = some m →
      request (some k) (some s) url action data t 200 body = .ok m)
    ∧ (jlookup "result" body = none → jlookup "message" body = none →
      request (some k) (some s) url action data t 200 body = .ok (Json.str "Ok")) := by
  refine ⟨fun r hr => ?_, fun hr m hm => ?_, fun hr hm => ?_⟩ <;>
    · rw [request_some_eq]
      unfold handleResponse
      rw [h1]
      simp [h2, hr]
      first
      | rfl
      | (rw [hm]; try rfl)
      | skip

/-- Witness for `success_result_message_fallback` on the body
`{"success": true, "result": 7}`. -/
theorem success_result_message_fallback_witness :
    (jlookup "success" [("success", Json.bool true), ("result", Json.num 7)]
      = some (Json.bool true))
    ∧ request (some "k") (some "s") "https://www.deribit.com" "/api/v1/public/index" [] 0 200
        [("success", Json.bool true), ("result", Json.num 7)] = .ok (Json.num 7) :=
  ⟨rfl,
    (success_result_message_fallback "k" "s" "https://www.deribit.com" "/api/v1/public/index"
      [] 0 [("success", Json.bool true), ("result", Json.num 7)] (Json.bool true)
      rfl rfl).1 (Json.num 7) rfl⟩

/-- C3 counterexample: the sentinel is the fixed string `"Ok"`, which is not
distinct from real payloads: a body carrying the real result `"Ok"` and a
body carrying no result at all produce identical return values. -/
theorem sentinel_equals_real_payload :
    request (some "k") (some "s") "https://www.deribit.com" "/api/v1/public/index" [] 0 200
      [("success", Json.bool true), ("result", Json.str "Ok")] = .ok (Json.str "Ok")
    ∧ request (some "k") (some "s") "https://www.deribit.com" "/api/v1/public/index" [] 0 200
      [("success", Json.bool true)] = .ok (Json.str "Ok") :=
  ⟨rfl, rfl⟩

theorem keys_cons (p : String × Value) (d : List (String × Value)) :
    keys (p :: d) = p.1 :: keys d := rfl

theorem keys_append (a b : List (String × Value)) :
    keys (a ++ b) = keys a ++ keys b := by
  simp [keys]

theorem keys_map_keyPres (f : String × Value → String × Value)
    (hf : ∀ p, (f p).1 = p.1) (l : List (String × Value)) : keys (l.map f) = keys l := by
  induction l with
  | nil => rfl
  | cons a t ih => simp only [List.map_cons, keys_cons, hf a, ih]

theorem alookup_eq_none (k : String) (d : List (String × Value)) :
    alookup k d = none ↔ k ∉ keys d := by
  induction d with
  | nil => simp [alookup, keys]
  | cons p t ih =>
    rw [keys_cons]
    by_cases h : p.1 = k
    · subst h
      simp [alookup]
    · simp only [alookup, if_neg h, List.mem_cons, ih]
      constructor
      · rintro hk (he | hm)
        · exact h he.symm
        · exact hk hm
      · intro hk hm
        exact hk (Or.inr hm)

theorem alookup_mem {k : String} {v : Value} {d : List (String × Value)}
    (h : alookup k d = some v) : (k, v) ∈ d := by
  induction d with
  | nil => simp [alookup] at h
  | cons p t ih =>
    by_cases hp : p.1 = k
    · simp [alookup, hp] at h
      subst hp h
      simp
    · simp [alookup, hp] at h
      exact List.mem_cons_of_mem _ (ih h)

theorem mem_alookup {k : String} {v : Value} {d : List (String × Value)}
    (hn : (keys d).Nodup) (h : (k, v) ∈ d) : alookup k d = some v := by
  induction d with
  | nil => simp at h
  | cons p t ih =>
    rw [keys_cons, List.nodup_cons] at hn
    rcases List.mem_cons.mp h with h | h
    · subst h
      simp [alookup]
    · have hk : k ∈ keys t := List.mem_map_of_mem Prod.fst h
      have hp : p.1 ≠ k := fun e => hn.1 (e ▸ hk)
      simp [alookup, hp]
      exact ih hn.2 h

theorem any_key_iff (d : List (String × Value)) (x : String) :
    (d.any fun p => p.1 == x) = true ↔ x ∈ keys d := by
  simp [List.any_eq_true, keys, List.mem_map, beq_iff_eq]

theorem updateDict_mem (d : List (String × Value)) (e : String × Value)
    (h : e.1 ∈ keys d) :
    updateDict d e = d.map (fun p => if p.1 = e.1 then (p.1, e.2) else p) := by
  unfold updateDict
  rw [if_pos ((any_key_iff d e.1).mpr h)]

theorem updateDict_not_mem (d : List (String × Value)) (e : String × Value)
    (h : e.1 ∉ keys d) : updateDict d e = d ++ [e] := by
  unfold updateDict
  rw [if_neg (fun hc => h ((any_key_iff d e.1).mp hc))]

theorem dictUpdate_cons (d : List (String × Value)) (p : String × Value)
    (ps : List (String × Value)) :
    dictUpdate d (p :: ps) = dictUpdate (updateDict d p) ps := rfl

/-- Characterization of `dict.update`: each original entry is overridden by
the caller's value when the caller supplies its key, and the caller's
fresh-keyed entries are appended in order. -/
theorem dictUpdate_eq (base ps : List (String × Value)) (hp : (keys ps).Nodup) :
    dictUpdate base ps
      = base.map (overrideBy ps)
        ++ ps.filter (fun p => !(decide (p.1 ∈ keys base))) := by
  induction ps generalizing base with
  | nil =>
    have hid : base.map (overrideBy []) = base :=
      List.map_id'' (fun q => rfl) base
    simp [dictUpdate, hid]
  | cons p ps ih =>
    rw [keys_cons, List.nodup_cons] at hp
    have hlook : alookup p.1 ps = none := (alookup_eq_none _ _).mpr hp.1
    rw [dictUpdate_cons]
    by_cases hmem : p.1 ∈ keys base
    · rw [updateDict_mem base p hmem, ih _ hp.2]
      have hkeys : keys (base.map fun q => if q.1 = p.1 then (q.1, p.2) else q) = keys base := by
        apply keys_map_keyPres
        intro q
        by_cases hq : q.1 = p.1 <;> simp [hq]
      rw [hkeys, List.map_map]
      have hmaps : base.map (overrideBy ps ∘ fun q => if q.1 = p.1 then (q.1, p.2) else q)
          = base.map (overrideBy (p :: ps)) := by
        apply List.map_congr_left
        intro b _
        simp only [Function.comp_apply]
        by_cases hb : b.1 = p.1
        · rw [if_pos hb]
          have h1 : alookup p.1 ps = none := hlook
          have h2 : alookup b.1 (p :: ps) = some p.2 := by
            simp only [alookup]
            rw [if_pos hb.symm]
          simp only [overrideBy, h2]
          rw [hb, h1]
        · rw [if_neg hb]
          have h2 : alookup b.1 (p :: ps) = alookup b.1 ps := by
            simp only [alookup]
            rw [if_neg (fun e => hb e.symm)]
          simp only [overrideBy, h2]
      have hfilter : (p :: ps).filter (fun q => !(decide (q.1 ∈ keys base)))
          = ps.filter (fun q => !(decide (q.1 ∈ keys base))) := by
        rw [List.filter_cons]
        simp [hmem]
      rw [hmaps, hfilter]
    · rw [updateDict_not_mem base p hmem, ih _ hp.2]
      have hkeys : keys (base ++ [p]) = keys base ++ [p.1] := by
        rw [keys_append]; rfl
      rw [List.map_append, hkeys]
      have hover : overrideBy ps p = p := by
        simp [overrideBy, hlook]
      have hmaps : base.map (overrideBy ps) = base.map (overrideBy (p :: ps)) := by
        apply List.map_congr_left
        intro b hb
        have hbp : ¬ p.1 = b.1 := by
          intro e
          exact hmem (e ▸ List.mem_map_of_mem Prod.fst hb)
        have h2 : alookup b.1 (p :: ps) = alookup b.1 ps := by
          simp only [alookup]
          rw [if_neg hbp]
        simp only [overrideBy, h2]
      have hfilter : ps.filter (fun q => !(decide (q.1 ∈ keys base ++ [p.1])))
          = ps.filter (fun q => !(decide (q.1 ∈ keys base))) := by
        apply List.filter_congr
        intro q hq
        have hqp : q.1 ≠ p.1 := by
          intro e
          exact hp.1 (e ▸ List.mem_map_of_mem Prod.fst hq)
        simp [hqp]
      have hfilter2 : (p :: ps).filter (fun q => !(decide (q.1 ∈ keys base)))
          = p :: ps.filter (fun q => !(decide (q.1 ∈ keys base))) := by
        rw [List.filter_cons]
        simp [hmem]
      rw [hfilter, hfilter2]
      simp only [List.map_cons, List.map_nil, hover, hmaps]
      simp [List.append_assoc]

theorem overrideBy_fst (ps : List (String × Value)) (b : String × Value) :
    (overrideBy ps b).1 = b.1 := by
  unfold overrideBy
  cases alookup b.1 ps <;> rfl

theorem not_any_key_iff (d : List (String × Value)) (x : String) :
    (!(d.any fun p => p.1 == x)) = true ↔ x ∉ keys d := by
  rw [Bool.not_eq_true']
  rw [← any_key_iff d x]
  cases d.any fun p => p.1 == x <;> simp

theorem keys_filter_sublist (c : String × Value → Bool) (l : List (String × Value)) :
    keys (l.filter c) <+ keys l :=
  (List.filter_sublist l).map Prod.fst

theorem mem_keys_of_mem {q : String × Value} {l : List (String × Value)}
    (h : q ∈ l) : q.1 ∈ keys l :=
  List.mem_map_of_mem Prod.fst h

theorem mem_filter_keybase {q : String × Value} (ps base : List (String × Value)) :
    q ∈ ps.filter (fun p => !(decide (p.1 ∈ keys base))) ↔ q ∈ ps ∧ q.1 ∉ keys base := by
  rw [List.mem_filter]
  simp

theorem mem_filter_anykey {q : String × Value} (base ps : List (String × Value)) :
    q ∈ base.filter (fun b => !(ps.any fun p => p.1 == b.1)) ↔ q ∈ base ∧ q.1 ∉ keys ps := by
  rw [List.mem_filter, not_any_key_iff]

theorem dictUpdate_nodupKeys (base ps : List (String × Value))
    (hb : (keys base).Nodup) (hp : (keys ps).Nodup) :
    (keys (dictUpdate base ps)).Nodup := by
  rw [dictUpdate_eq base ps hp, keys_append, keys_map_keyPres _ (overrideBy_fst ps)]
  rw [List.nodup_append]
  refine ⟨hb, (keys_filter_sublist _ ps).nodup hp, ?_⟩
  intro x hx hx2
  rcases List.mem_map.mp hx2 with ⟨q, hq, hq1⟩
  have hc := ((mem_filter_keybase ps base).mp hq).2
  exact hc (hq1 ▸ hx)

theorem nodup_of_nodupKeys {l : List (String × Value)} (h : (keys l).Nodup) : l.Nodup :=
  List.Nodup.of_map Prod.fst h

/-- The updated dict is a permutation of the spec-side merge (caller entries
followed by the non-overridden fixed entries). -/
theorem dictUpdate_perm (base ps : List (String × Value))
    (hb : (keys base).Nodup) (hp : (keys ps).Nodup) :
    dictUpdate base ps ~ ps ++ base.filter (fun b => !(ps.any fun p => p.1 == b.1)) := by
  have hrhsnodup : (ps ++ base.filter (fun b => !(ps.any fun p => p.1 == b.1))).Nodup := by
    rw [List.nodup_append]
    refine ⟨nodup_of_nodupKeys hp,
      (List.filter_sublist base).nodup (nodup_of_nodupKeys hb), ?_⟩
    intro q hq hq2
    have hc := ((mem_filter_anykey base ps).mp hq2).2
    exact hc (mem_keys_of_mem hq)
  have hlhsnodup : (dictUpdate base ps).Nodup :=
    nodup_of_nodupKeys (dictUpdate_nodupKeys base ps hb hp)
  rw [List.perm_ext_iff_of_nodup hlhsnodup hrhsnodup]
  intro q
  rw [dictUpdate_eq base ps hp]
  rw [List.mem_append, List.mem_append, mem_filter_keybase ps base, mem_filter_anykey base ps,
    List.mem_map]
  constructor
  · rintro (⟨b, hb2, hbq⟩ | ⟨hqps, hc⟩)
    · subst hbq
      rcases hcase : alookup b.1 ps with _ | v
      · refine Or.inr ⟨?_, ?_⟩
        · rw [show overrideBy ps b = b by simp [overrideBy, hcase]]
          exact hb2
        · rw [overrideBy_fst]
          exact (alookup_eq_none _ _).mp hcase
      · refine Or.inl ?_
        rw [show overrideBy ps b = (b.1, v) by simp [overrideBy, hcase]]
        exact alookup_mem hcase
    · exact Or.inl hqps
  · rintro (hqps | ⟨hqb, hc⟩)
    · by_cases hkb : q.1 ∈ keys base
      · rcases List.mem_map.mp hkb with ⟨b, hb2, hb1⟩
        refine Or.inl ⟨b, hb2, ?_⟩
        have hlk : alookup b.1 ps = some q.2 := by
          rw [hb1]
          exact mem_alookup hp hqps
        rw [show overrideBy ps b = (b.1, q.2) by simp [overrideBy, hlk]]
        rw [hb1]
      · exact Or.inr ⟨hqps, hkb⟩
    · refine Or.inl ⟨q, hqb, ?_⟩
      rw [show overrideBy ps q = q by simp [overrideBy, (alookup_eq_none _ _).mpr hc]]

theorem keyLe_trans : ∀ (a b c : String × Value), keyLe a b → keyLe b c → keyLe a c := by
  intro a b c h1 h2
  simp only [keyLe, decide_eq_true_eq] at *
  exact le_trans h1 h2

theorem keyLe_total : ∀ (a b : String × Value), keyLe a b || keyLe b a := by
  intro a b
  simp only [keyLe]
  rcases le_total a.1 b.1 with h | h <;> simp [h]

/-- The sorted signing entries are strictly increasing in their keys when the
keys are distinct. -/
theorem sorted_strict (l : List (String × Value)) (hn : (keys l).Nodup) :
    (l.mergeSort keyLe).Pairwise (fun a b => a.1 < b.1) := by
  have hs := List.sorted_mergeSort keyLe_trans keyLe_total l
  have hnd : (keys (l.mergeSort keyLe)).Nodup := by
    rw [keys]
    exact (((List.mergeSort_perm l keyLe).map Prod.fst).nodup_iff).mpr hn
  have hne : (l.mergeSort keyLe).Pairwise (fun a b => a.1 ≠ b.1) := by
    have h2 : (List.map Prod.fst (l.mergeSort keyLe)).Pairwise (· ≠ ·) := hnd
    exact List.pairwise_map.mp h2
  exact hs.imp₂ (fun a b h1 h2 =>
    lt_of_le_of_ne (by simpa [keyLe] using h1) h2) hne

/-- Sorting by key is determined by the underlying set of entries when the
keys are distinct: permuted inputs sort identically. -/
theorem mergeSort_eq_of_perm {l₁ l₂ : List (String × Value)} (hp : l₁ ~ l₂)
    (hn : (keys l₁).Nodup) : l₁.mergeSort keyLe = l₂.mergeSort keyLe := by
  haveI : IsAntisymm (String × Value) (fun a b => a.1 < b.1) :=
    ⟨fun a b h1 h2 => absurd (lt_trans h1 h2) (lt_irrefl _)⟩
  apply List.eq_of_perm_of_sorted (r := fun a b => a.1 < b.1)
  · exact (List.mergeSort_perm l₁ keyLe).trans (hp.trans (List.mergeSort_perm l₂ keyLe).symm)
  · exact sorted_strict l₁ hn
  · exact sorted_strict l₂ (((hp.map Prod.fst).nodup_iff).mp hn)

theorem converter_eq_specRender (p : String × Value) : converter p = specRender p := by
  rcases p with ⟨k, v⟩
  cases v <;> rfl

theorem intercalate_go_append (x y : String) (as : List String) :
    String.intercalate.go (x ++ y) "&" as = x ++ String.intercalate.go y "&" as := by
  induction as generalizing y with
  | nil => rfl
  | cons c cs ih =>
    show String.intercalate.go (x ++ y ++ "&" ++ c) "&" cs
      = x ++ String.intercalate.go (y ++ "&" ++ c) "&" cs
    rw [String.append_assoc x y "&", String.append_assoc x (y ++ "&") c]
    exact ih (y ++ "&" ++ c)

theorem joinAmp_eq_intercalate : ∀ l : List String, joinAmp l = String.intercalate "&" l
  | [] => rfl
  | [a] => rfl
  | a :: b :: bs => by
    have ih := joinAmp_eq_intercalate (b :: bs)
    show a ++ "&" ++ joinAmp (b :: bs) = String.intercalate.go (a ++ "&" ++ b) "&" bs
    rw [intercalate_go_append (a ++ "&") b bs, ih]
    rfl

theorem mkSignatureData_nodupKeys (key secret action : String) (t : Nat) :
    (keys (mkSignatureData key secret action t)).Nodup := by
  show (["_", "_ackey", "_acsec", "_action"] : List String).Nodup
  decide

/-- C2: `generate_signature` computes exactly the signature described by the
spec: `key + "." + decimal(tstamp) + "." + base64(SHA-256(UTF-8(S)))` where
`S` merges the four fixed entries with the caller's parameters (caller wins),
sorts by key, renders each entry as `key=value` (lists concatenated with no
separator) and joins with `&`. -/
theorem generate_signature_matches_spec (key secret action : String)
    (params : List (String × Value)) (t : Nat) (hp : (keys params).Nodup) :
    generate_signature key secret action params t = specSignature key secret action params t := by
  unfold generate_signature specSignature signingString signingEntries specMergedEntries
  rw [← joinAmp_eq_intercalate]
  rw [mergeSort_eq_of_perm
    (dictUpdate_perm (mkSignatureData key secret action t) params
      (mkSignatureData_nodupKeys key secret action t) hp)
    (dictUpdate_nodupKeys (mkSignatureData key secret action t) params
      (mkSignatureData_nodupKeys key secret action t) hp)]
  rw [show converter = specRender from funext converter_eq_specRender]

/-- Witness for `generate_signature_matches_spec` on a concrete parameter
mapping with distinct keys. -/
theorem generate_signature_matches_spec_witness :
    (keys [("instrument", Value.str "BTC-5JAN18-11000-P"), ("price", Value.int 9)]).Nodup
    ∧ generate_signature "ak" "sk" "/api/v1/private/buy"
        [("instrument", Value.str "BTC-5JAN18-11000-P"), ("price", Value.int 9)] 1515000000000
      = specSignature "ak" "sk" "/api/v1/private/buy"
        [("instrument", Value.str "BTC-5JAN18-11000-P"), ("price", Value.int 9)] 1515000000000 :=
  ⟨by decide,
    generate_signature_matches_spec "ak" "sk" "/api/v1/private/buy"
      [("instrument", Value.str "BTC-5JAN18-11000-P"), ("price", Value.int 9)] 1515000000000
      (by decide)⟩

theorem perm_any_eq {l₁ l₂ : List (String × Value)} (h : List.Perm l₁ l₂)
    (f : String × Value → Bool) : l₁.any f = l₂.any f := by
  cases h1 : l₁.any f <;> cases h2 : l₂.any f <;> try rfl
  · rcases List.any_eq_true.mp h2 with ⟨x, hx, hfx⟩
    have h3 : l₁.any f = true := List.any_eq_true.mpr ⟨x, h.mem_iff.mpr hx, hfx⟩
    rw [h1] at h3
    cases h3
  · rcases List.any_eq_true.mp h1 with ⟨x, hx, hfx⟩
    have h3 : l₂.any f = true := List.any_eq_true.mpr ⟨x, h.mem_iff.mp hx, hfx⟩
    rw [h2] at h3
    cases h3

/-- C6: two parameter mappings containing the same key-value entries in
different insertion orders yield the same signature: the signing entries are
sorted by key, independent of the insertion order of `params`. -/
theorem signature_insertion_order_invariant (key secret action : String)
    (ps₁ ps₂ : List (String × Value)) (t : Nat)
    (hperm : List.Perm ps₁ ps₂) (hp : (keys ps₁).Nodup) :
    generate_signature key secret action ps₁ t = generate_signature key secret action ps₂ t := by
  have hp2 : (keys ps₂).Nodup := ((hperm.map Prod.fst).nodup_iff).mp hp
  have hbase := mkSignatureData_nodupKeys key secret action t
  have hfil : (mkSignatureData key secret action t).filter
        (fun b => !(ps₁.any fun p => p.1 == b.1))
      = (mkSignatureData key secret action t).filter
        (fun b => !(ps₂.any fun p => p.1 == b.1)) := by
    apply List.filter_congr
    intro b _
    rw [perm_any_eq hperm]
  have hper : List.Perm (dictUpdate (mkSignatureData key secret action t) ps₁)
      (dictUpdate (mkSignatureData key secret action t) ps₂) := by
    refine (dictUpdate_perm _ ps₁ hbase hp).trans
      (List.Perm.trans ?_ (dictUpdate_perm _ ps₂ hbase hp2).symm)
    rw [hfil]
    exact hperm.append_right _
  unfold generate_signature signingString signingEntries
  rw [mergeSort_eq_of_perm hper (dictUpdate_nodupKeys _ ps₁ hbase hp)]

/-- Witness for `signature_insertion_order_invariant` on two concrete
two-entry mappings in swapped insertion order. -/
theorem signature_insertion_order_invariant_witness :
    (keys [("instrument", Value.str "BTC"), ("quantity", Value.int 3)]).Nodup
    ∧ generate_signature "ak" "sk" "/api/v1/private/buy"
        [("instrument", Value.str "BTC"), ("quantity", Value.int 3)] 7
      = generate_signature "ak" "sk" "/api/v1/private/buy"
        [("quantity", Value.int 3), ("instrument", Value.str "BTC")] 7 :=
  ⟨by decide,
    signature_insertion_order_invariant "ak" "sk" "/api/v1/private/buy"
      [("instrument", Value.str "BTC"), ("quantity", Value.int 3)]
      [("quantity", Value.int 3), ("instrument", Value.str "BTC")] 7
      (List.Perm.swap ("quantity", Value.int 3) ("instrument", Value.str "BTC") [])
      (by decide)⟩

/-! ### Single-point substitution lemmas for the sensitivity claim -/

theorem substAt_fst (k : String) (v : Value) (p : String × Value) :
    (substAt k v p).1 = p.1 := by
  unfold substAt
  split <;> rfl

theorem map_substAt_id {l : List (String × Value)} {k : String} {v : Value}
    (h : k ∉ keys l) : l.map (substAt k v) = l := by
  rw [show l.map (substAt k v) = l.map id from
    List.map_congr_left fun p hp => by
      have hpk : p.1 ≠ k := fun e => h (e ▸ mem_keys_of_mem hp)
      simp [substAt, hpk]]
  exact List.map_id l

theorem updateDict_map_subst (k : String) (v : Value) (d : List (String × Value))
    (e : String × Value) :
    updateDict (d.map (substAt k v)) (substAt k v e) = (updateDict d e).map (substAt k v) := by
  by_cases hmem : e.1 ∈ keys d
  · have hm2 : (substAt k v e).1 ∈ keys (d.map (substAt k v)) := by
      rw [keys_map_keyPres _ (substAt_fst k v), substAt_fst]
      exact hmem
    rw [updateDict_mem _ _ hm2, updateDict_mem _ _ hmem]
    rw [List.map_map, List.map_map]
    apply List.map_congr_left
    intro q hq
    simp only [Function.comp_apply]
    by_cases hqe : q.1 = e.1
    · by_cases hek : e.1 = k
      · have hqk : q.1 = k := hqe.trans hek
        simp [substAt, substAt_fst, hqe, hek, hqk]
      · have hqk : ¬ q.1 = k := fun e2 => hek (hqe.symm.trans e2)
        simp [substAt, substAt_fst, hqe, hek, hqk]
    · have hcond : ¬ ((substAt k v q).1 = (substAt k v e).1) := by
        rw [substAt_fst, substAt_fst]
        exact hqe
      rw [if_neg hcond, if_neg hqe]
  · have hm2 : (substAt k v e).1 ∉ keys (d.map (substAt k v)) := by
      rw [keys_map_keyPres _ (substAt_fst k v), substAt_fst]
      exact hmem
    rw [updateDict_not_mem _ _ hm2, updateDict_not_mem _ _ hmem, List.map_append]
    rfl

theorem dictUpdate_map_subst (k : String) (v : Value) (d ps : List (String × Value)) :
    dictUpdate (d.map (substAt k v)) (ps.map (substAt k v))
      = (dictUpdate d ps).map (substAt k v) := by
  induction ps generalizing d with
  | nil => rfl
  | cons p ps ih =>
    rw [List.map_cons, dictUpdate_cons, dictUpdate_cons, updateDict_map_subst k v d p]
    exact ih (updateDict d p)

theorem mergeSort_map_subst (k : String) (v : Value) (l : List (String × Value))
    (hn : (keys l).Nodup) :
    (l.map (substAt k v)).mergeSort keyLe = (l.mergeSort keyLe).map (substAt k v) := by
  haveI : IsAntisymm (String × Value) (fun a b => a.1 < b.1) :=
    ⟨fun a b h1 h2 => absurd (lt_trans h1 h2) (lt_irrefl _)⟩
  apply List.eq_of_perm_of_sorted (r := fun a b => a.1 < b.1)
  · exact (List.mergeSort_perm _ keyLe).trans
      ((List.mergeSort_perm l keyLe).symm.map (substAt k v))
  · apply sorted_strict
    rw [keys_map_keyPres _ (substAt_fst k v)]
    exact hn
  · have hs := sorted_strict l hn
    exact List.pairwise_map.mpr (hs.imp fun {a b} h => by
      rw [substAt_fst, substAt_fst]
      exact h)

theorem split_at_key {l : List (String × Value)} {k : String} {v : Value}
    (hn : (keys l).Nodup) (hm : (k, v) ∈ l) :
    ∃ A B, l = A ++ (k, v) :: B ∧ k ∉ keys A ∧ k ∉ keys B := by
  rcases List.append_of_mem hm with ⟨A, B, rfl⟩
  rw [keys_append, keys_cons] at hn
  rcases List.nodup_append.mp hn with ⟨hA, hB, hdisj⟩
  refine ⟨A, B, rfl, ?_, ?_⟩
  · exact fun hk => hdisj hk (List.mem_cons_self _ _)
  · exact (List.nodup_cons.mp hB).1

theorem map_substAt_split (A B : List (String × Value)) (k : String) (v v2 : Value)
    (hA : k ∉ keys A) (hB : k ∉ keys B) :
    (A ++ (k, v) :: B).map (substAt k v2) = A ++ (k, v2) :: B := by
  rw [List.map_append, List.map_cons, map_substAt_id hA, map_substAt_id hB]
  have : substAt k v2 (k, v) = (k, v2) := by
    simp [substAt]
  rw [this]

theorem string_append_left_cancel {a P Q : String} (h : a ++ P = a ++ Q) : P = Q := by
  apply String.ext
  have hd := congrArg String.data h
  rw [String.data_append, String.data_append] at hd
  exact List.append_cancel_left hd

theorem string_append_right_cancel {P Q b : String} (h : P ++ b = Q ++ b) : P = Q := by
  apply String.ext
  have hd := congrArg String.data h
  rw [String.data_append, String.data_append] at hd
  exact List.append_cancel_right hd

theorem joinAmp_cons_of_ne_nil (a : String) (l : List String) (h : l ≠ []) :
    joinAmp (a :: l) = a ++ "&" ++ joinAmp l := by
  cases l with
  | nil => exact absurd rfl h
  | cons b bs => rfl

theorem joinAmp_append_ne {x y : String} (hne : x ≠ y) :
    ∀ A B : List String, joinAmp (A ++ x :: B) ≠ joinAmp (A ++ y :: B) := by
  intro A
  induction A with
  | nil =>
    intro B h
    cases B with
    | nil => exact hne h
    | cons c cs =>
      rw [List.nil_append, List.nil_append,
        joinAmp_cons_of_ne_nil x (c :: cs) (by simp),
        joinAmp_cons_of_ne_nil y (c :: cs) (by simp)] at h
      exact hne (string_append_right_cancel (string_append_right_cancel h))
  | cons a A ih =>
    intro B h
    rw [List.cons_append, List.cons_append,
      joinAmp_cons_of_ne_nil a (A ++ x :: B) (by simp),
      joinAmp_cons_of_ne_nil a (A ++ y :: B) (by simp)] at h
    exact ih B (string_append_left_cancel h)

theorem mem_dictUpdate_base {base ps : List (String × Value)} (hp : (keys ps).Nodup)
    {b : String × Value} (hb : b ∈ base) (hk : b.1 ∉ keys ps) : b ∈ dictUpdate base ps := by
  rw [dictUpdate_eq base ps hp]
  apply List.mem_append_left
  have he : overrideBy ps b = b := by
    simp [overrideBy, (alookup_eq_none _ _).mpr hk]
  exact he ▸ List.mem_map_of_mem (overrideBy ps) hb

theorem mem_dictUpdate_param {base ps : List (String × Value)} (hp : (keys ps).Nodup)
    {q : String × Value} (hq : q ∈ ps) (hk : q.1 ∉ keys base) : q ∈ dictUpdate base ps := by
  rw [dictUpdate_eq base ps hp]
  exact List.mem_append_right _ ((mem_filter_keybase ps base).mpr ⟨hq, hk⟩)

/-- Core sensitivity lemma: replacing the value stored under one key of the
signing dict by a differently-rendering value changes the `&`-joined signing
string (the slot occupied by that key changes, everything else is fixed). -/
theorem joined_ne_of_subst (M : List (String × Value)) (k : String) (v v2 : Value)
    (hn : (keys M).Nodup) (hmem : (k, v) ∈ M)
    (hneq : converter (k, v) ≠ converter (k, v2)) :
    joinAmp ((M.mergeSort keyLe).map converter)
      ≠ joinAmp (((M.map (substAt k v2)).mergeSort keyLe).map converter) := by
  rw [mergeSort_map_subst k v2 M hn]
  have hn2 : (keys (M.mergeSort keyLe)).Nodup :=
    (((List.mergeSort_perm M keyLe).map Prod.fst).nodup_iff).mpr hn
  have hmem2 : (k, v) ∈ M.mergeSort keyLe := List.mem_mergeSort.mpr hmem
  rcases split_at_key hn2 hmem2 with ⟨A, B, hE, hA, hB⟩
  rw [hE, map_substAt_split A B k v v2 hA hB]
  rw [List.map_append, List.map_cons, List.map_append, List.map_cons]
  exact joinAmp_append_ne hneq (A.map converter) (B.map converter)

theorem converter_str_ne {k w w2 : String} (h : w ≠ w2) :
    converter (k, Value.str w) ≠ converter (k, Value.str w2) :=
  fun he => h (string_append_left_cancel (he : (k ++ "=") ++ w = (k ++ "=") ++ w2))

/-! ### Injectivity of the decimal rendering (Python `str(int)`) -/

theorem decChars_def (n : Nat) : decChars n
    = if n < 10 then [Nat.digitChar n]
      else decChars (n / 10) ++ [Nat.digitChar (n % 10)] := by
  by_cases h : n < 10
  · rw [decChars, dif_pos h, if_pos h]
  · rw [decChars, dif_neg h, if_neg h]

theorem decChars_ne_nil (n : Nat) : decChars n ≠ [] := by
  rw [decChars_def]
  split <;> simp

theorem digitChar_inj_lt : ∀ m, m < 10 → ∀ n, n < 10 →
    Nat.digitChar m = Nat.digitChar n → m = n := by
  decide

theorem digitChar_ne_dash : ∀ d, d < 10 → Nat.digitChar d ≠ Char.ofNat 45 := by
  decide

theorem decChars_head (n : Nat) : ∃ d t, d < 10 ∧ decChars n = Nat.digitChar d :: t := by
  induction n using Nat.strong_induction_on with
  | _ n ih =>
    rw [decChars_def]
    by_cases h : n < 10
    · exact ⟨n, [], h, by rw [if_pos h]⟩
    · rcases ih (n / 10) (by omega) with ⟨d, t, hd, he⟩
      refine ⟨d, t ++ [Nat.digitChar (n % 10)], hd, ?_⟩
      rw [if_neg h, he]
      rfl

theorem decChars_inj : ∀ m n, decChars m = decChars n → m = n := by
  intro m
  induction m using Nat.strong_induction_on with
  | _ m ih =>
    intro n he
    by_cases hm : m < 10 <;> by_cases hn : n < 10
    · rw [decChars_def m, decChars_def n, if_pos hm, if_pos hn] at he
      injection he with h1 h2
      exact digitChar_inj_lt m hm n hn h1
    · rw [decChars_def m, decChars_def n, if_pos hm, if_neg hn] at he
      have hlen := congrArg List.length he
      simp only [List.length_singleton, List.length_append, List.length_cons,
        List.length_nil] at hlen
      have h0 : (decChars (n / 10)).length = 0 := by omega
      exact absurd (List.eq_nil_of_length_eq_zero h0) (decChars_ne_nil _)
    · rw [decChars_def m, decChars_def n, if_neg hm, if_pos hn] at he
      have hlen := congrArg List.length he
      simp only [List.length_singleton, List.length_append, List.length_cons,
        List.length_nil] at hlen
      have h0 : (decChars (m / 10)).length = 0 := by omega
      exact absurd (List.eq_nil_of_length_eq_zero h0) (decChars_ne_nil _)
    · rw [decChars_def m, decChars_def n, if_neg hm, if_neg hn] at he
      have hp := List.append_inj' he rfl
      have h1 : m / 10 = n / 10 := ih (m / 10) (by omega) (n / 10) hp.1
      have h2 : Nat.digitChar (m % 10) = Nat.digitChar (n % 10) := by
        injection hp.2
      have h3 : m % 10 = n % 10 :=
        digitChar_inj_lt _ (Nat.mod_lt _ (by omega)) _ (Nat.mod_lt _ (by omega)) h2
      omega

theorem toDigitsCore_eq_decChars : ∀ (fuel n : Nat), n < fuel → ∀ ds : List Char,
    Nat.toDigitsCore 10 fuel n ds = decChars n ++ ds := by
  intro fuel
  induction fuel with
  | zero =>
    intro n h
    omega
  | succ f ih =>
    intro n h ds
    rw [show Nat.toDigitsCore 10 (f + 1) n ds
        = if n / 10 = 0 then Nat.digitChar (n % 10) :: ds
          else Nat.toDigitsCore 10 f (n / 10) (Nat.digitChar (n % 10) :: ds) from rfl]
    by_cases h10 : n / 10 = 0
    · have hn : n < 10 := by omega
      rw [if_pos h10, decChars_def, if_pos hn, Nat.mod_eq_of_lt hn]
      rfl
    · have hn : ¬ n < 10 := by omega
      rw [if_neg h10, ih (n / 10) (by omega) (Nat.digitChar (n % 10) :: ds),
        decChars_def n, if_neg hn, List.append_assoc]
      rfl

theorem natRepr_eq_decChars (n : Nat) : Nat.repr n = (decChars n).asString := by
  unfold Nat.repr Nat.toDigits
  rw [toDigitsCore_eq_decChars (n + 1) n (by omega) [], List.append_nil]

theorem natRepr_inj {m n : Nat} (h : Nat.repr m = Nat.repr n) : m = n := by
  have e3 : (decChars m).asString = (decChars n).asString := by
    rw [← natRepr_eq_decChars, ← natRepr_eq_decChars, h]
  have e4 : decChars m = decChars n := congrArg String.data e3
  exact decChars_inj m n e4

theorem natRepr_head (n : Nat) :
    ∃ d t, d < 10 ∧ (Nat.repr n).data = Nat.digitChar d :: t := by
  rcases decChars_head n with ⟨d, t, hd, he⟩
  refine ⟨d, t, hd, ?_⟩
  rw [natRepr_eq_decChars]
  exact he

theorem int_toString_inj {a b : Int} (h : toString a = toString b) : a = b := by
  cases a with
  | ofNat m =>
    cases b with
    | ofNat n =>
      exact congrArg Int.ofNat (natRepr_inj (h : Nat.repr m = Nat.repr n))
    | negSucc n =>
      exfalso
      rcases natRepr_head m with ⟨d, t, hd, he⟩
      have hdata : (Nat.repr m).data = (Char.ofNat 45 :: (Nat.repr (n + 1)).data : List Char) :=
        congrArg String.data (h : Nat.repr m = "-" ++ Nat.repr (n + 1))
      rw [he] at hdata
      injection hdata with h1 h2
      exact digitChar_ne_dash d hd h1
  | negSucc m =>
    cases b with
    | ofNat n =>
      exfalso
      rcases natRepr_head n with ⟨d, t, hd, he⟩
      have hdata : (Char.ofNat 45 :: (Nat.repr (m + 1)).data : List Char) = (Nat.repr n).data :=
        congrArg String.data (h : "-" ++ Nat.repr (m + 1) = Nat.repr n)
      rw [he] at hdata
      injection hdata with h1 h2
      exact digitChar_ne_dash d hd h1.symm
    | negSucc n =>
      have h2 : Nat.repr (m + 1) = Nat.repr (n + 1) :=
        string_append_left_cancel (h : "-" ++ Nat.repr (m + 1) = "-" ++ Nat.repr (n + 1))
      have h3 : m + 1 = n + 1 := natRepr_inj h2
      exact congrArg Int.negSucc (by omega)

/-! ### Rendering inequalities for the other value kinds -/

theorem string_foldl_append (l : List String) (s : String) :
    l.foldl (fun r t => r ++ t) s = s ++ l.foldl (fun r t => r ++ t) "" := by
  induction l generalizing s with
  | nil =>
    rw [List.foldl_nil, List.foldl_nil, String.append_empty]
  | cons x xs ih =>
    rw [List.foldl_cons, List.foldl_cons, ih (s ++ x), ih ("" ++ x), String.empty_append,
      String.append_assoc]

theorem join_cons (x : String) (xs : List String) :
    String.join (x :: xs) = x ++ String.join xs := by
  show (x :: xs).foldl (fun r s => r ++ s) "" = x ++ xs.foldl (fun r s => r ++ s) ""
  rw [List.foldl_cons, string_foldl_append xs ("" ++ x), String.empty_append]

theorem join_append_cons (E : List String) (e : String) (F : List String) :
    String.join (E ++ e :: F) = String.join E ++ e ++ String.join F := by
  induction E with
  | nil =>
    rw [List.nil_append, join_cons]
    show e ++ String.join F = ("" ++ e) ++ String.join F
    rw [String.empty_append]
  | cons a E ih =>
    rw [List.cons_append, join_cons, ih, join_cons, String.append_assoc,
      String.append_assoc, String.append_assoc]

theorem converter_int_ne {k : String} {n n2 : Int} (h : n ≠ n2) :
    converter (k, Value.int n) ≠ converter (k, Value.int n2) :=
  fun he => h (int_toString_inj (string_append_left_cancel
    (he : (k ++ "=") ++ toString n = (k ++ "=") ++ toString n2)))

theorem converter_bool_ne {k : String} {b b2 : Bool} (h : b ≠ b2) :
    converter (k, Value.bool b) ≠ converter (k, Value.bool b2) := by
  cases b <;> cases b2
  · exact absurd rfl h
  · intro he
    exact absurd (string_append_left_cancel
      (he : (k ++ "=") ++ "False" = (k ++ "=") ++ "True")) (by decide)
  · intro he
    exact absurd (string_append_left_cancel
      (he : (k ++ "=") ++ "True" = (k ++ "=") ++ "False")) (by decide)
  · exact absurd rfl h

theorem converter_list_ne {k e e2 : String} {E F : List String} (h : e ≠ e2) :
    converter (k, Value.list (E ++ e :: F)) ≠ converter (k, Value.list (E ++ e2 :: F)) := by
  intro he
  have h1 : String.join (E ++ e :: F) = String.join (E ++ e2 :: F) :=
    string_append_left_cancel
      (he : (k ++ "=") ++ String.join (E ++ e :: F) = (k ++ "=") ++ String.join (E ++ e2 :: F))
  rw [join_append_cons, join_append_cons] at h1
  exact h (string_append_left_cancel (string_append_right_cancel h1))

/-- Substituting one fixed signing entry relates the signing strings of two
credential/path configurations. -/
theorem signingString_base_ne (key secret action : String) (ps : List (String × Value))
    (t : Nat) (hp : (keys ps).Nodup) (k0 : String) (w w2 : Value)
    (hk0 : k0 ∉ keys ps)
    (hb : (k0, w) ∈ mkSignatureData key secret action t)
    (key2 secret2 action2 : String)
    (hbase2 : mkSignatureData key2 secret2 action2 t
      = (mkSignatureData key secret action t).map (substAt k0 w2))
    (hneq : converter (k0, w) ≠ converter (k0, w2)) :
    signingString key secret action ps t ≠ signingString key2 secret2 action2 ps t := by
  unfold signingString signingEntries
  rw [hbase2]
  conv_rhs => rw [show ps = ps.map (substAt k0 w2) from (map_substAt_id hk0).symm]
  rw [dictUpdate_map_subst k0 w2 (mkSignatureData key secret action t) ps]
  exact joined_ne_of_subst (dictUpdate (mkSignatureData key secret action t) ps) k0 w w2
    (dictUpdate_nodupKeys _ ps (mkSignatureData_nodupKeys key secret action t) hp)
    (mem_dictUpdate_base hp hb hk0) hneq

/-- Substituting a differently-rendering value at one parameter key changes
the signing string; shared by the per-kind sensitivity conjuncts. -/
theorem signingString_param_ne (key secret action : String) (ps : List (String × Value))
    (t : Nat) (hp : (keys ps).Nodup) (hres : ∀ r ∈ reservedKeys, r ∉ keys ps)
    (kp : String) (v v2 : Value) (hq : (kp, v) ∈ ps)
    (hneq : converter (kp, v) ≠ converter (kp, v2)) :
    signingString key secret action ps t
      ≠ signingString key secret action (ps.map (substAt kp v2)) t := by
  have hkp : kp ∈ keys ps := mem_keys_of_mem hq
  have hkbase : kp ∉ keys (mkSignatureData key secret action t) := by
    intro hmem2
    have hr : kp ∈ reservedKeys := hmem2
    exact hres kp hr hkp
  unfold signingString signingEntries
  conv_rhs => rw [show mkSignatureData key secret action t
    = (mkSignatureData key secret action t).map (substAt kp v2) from
      (map_substAt_id hkbase).symm]
  rw [dictUpdate_map_subst kp v2 (mkSignatureData key secret action t) ps]
  exact joined_ne_of_subst (dictUpdate (mkSignatureData key secret action t) ps) kp v v2
    (dictUpdate_nodupKeys _ ps (mkSignatureData_nodupKeys key secret action t) hp)
    (mem_dictUpdate_param hp hq hkbase) hneq

/-- C9 (amended): for parameter mappings with distinct keys that do not
supply the reserved keys `_`, `_ackey`, `_acsec`, `_action`, any change to
the key, the secret, the path, or any parameter value — a string value
changed to a different string, an integer to a different integer, a boolean
to the other boolean, or one element of a list value changed to a different
string (each in particular covering any single-character change) — changes
the underlying signing string, hence, with the hash treated as
collision-free, the signature. -/
theorem signature_single_change_sensitivity (key key2 secret secret2 action action2 : String)
    (ps : List (String × Value)) (t : Nat)
    (hp : (keys ps).Nodup) (hres : ∀ r ∈ reservedKeys, r ∉ keys ps) :
    (key ≠ key2 →
      signingString key secret action ps t ≠ signingString key2 secret action ps t)
    ∧ (secret ≠ secret2 →
      signingString key secret action ps t ≠ signingString key secret2 action ps t)
    ∧ (action ≠ action2 →
      signingString key secret action ps t ≠ signingString key secret action2 ps t)
    ∧ (∀ kp w w2, (kp, Value.str w) ∈ ps → w ≠ w2 →
      signingString key secret action ps t
        ≠ signingString key secret action (ps.map (substAt kp (Value.str w2))) t)
    ∧ (∀ kp n n2, (kp, Value.int n) ∈ ps → n ≠ n2 →
      signingString key secret action ps t
        ≠ signingString key secret action (ps.map (substAt kp (Value.int n2))) t)
    ∧ (∀ kp b b2, (kp, Value.bool b) ∈ ps → b ≠ b2 →
      signingString key secret action ps t
        ≠ signingString key secret action (ps.map (substAt kp (Value.bool b2))) t)
    ∧ (∀ kp E F e e2, (kp, Value.list (E ++ e :: F)) ∈ ps → e ≠ e2 →
      signingString key secret action ps t
        ≠ signingString key secret action
            (ps.map (substAt kp (Value.list (E ++ e2 :: F)))) t) := by
  refine ⟨fun hne => ?_, fun hne => ?_, fun hne => ?_,
    fun kp w w2 hq hne =>
      signingString_param_ne key secret action ps t hp hres kp _ _ hq (converter_str_ne hne),
    fun kp n n2 hq hne =>
      signingString_param_ne key secret action ps t hp hres kp _ _ hq (converter_int_ne hne),
    fun kp b b2 hq hne =>
      signingString_param_ne key secret action ps t hp hres kp _ _ hq (converter_bool_ne hne),
    fun kp E F e e2 hq hne =>
      signingString_param_ne key secret action ps t hp hres kp _ _ hq (converter_list_ne hne)⟩
  · refine signingString_base_ne key secret action ps t hp "_ackey" (Value.str key)
      (Value.str key2) (hres "_ackey" (by decide)) (by simp [mkSignatureData])
      key2 secret action ?_ (converter_str_ne hne)
    simp [mkSignatureData, substAt]
  · refine signingString_base_ne key secret action ps t hp "_acsec" (Value.str secret)
      (Value.str secret2) (hres "_acsec" (by decide)) (by simp [mkSignatureData])
      key secret2 action ?_ (converter_str_ne hne)
    simp [mkSignatureData, substAt]
  · refine signingString_base_ne key secret action ps t hp "_action" (Value.str action)
      (Value.str action2) (hres "_action" (by decide)) (by simp [mkSignatureData])
      key secret action2 ?_ (converter_str_ne hne)
    simp [mkSignatureData, substAt]

/-- Witness for `signature_single_change_sensitivity`: changing the secret
changes the signing string on a concrete input. -/
theorem signature_single_change_sensitivity_witness :
    (keys [("instrument", Value.str "BTC")]).Nodup
    ∧ signingString "k" "sa" "/a" [("instrument", Value.str "BTC")] 5
      ≠ signingString "k" "sb" "/a" [("instrument", Value.str "BTC")] 5 :=
  ⟨by decide,
    (signature_single_change_sensitivity "k" "k" "sa" "sb" "/a" "/a"
      [("instrument", Value.str "BTC")] 5 (by decide) (by decide)).2.1 (by decide)⟩

/-- C9 counterexample: when the caller's parameters override the reserved key
`_acsec`, the secret no longer influences the signature at all: two clients
whose secrets differ (in particular in a single character) produce the same
signature for the same request, though no hash collision is involved. -/
theorem signature_insensitive_under_reserved_override :
    ("a" : String) ≠ "b"
    ∧ generate_signature "k" "a" "/a" [("_acsec", Value.str "X")] 5
      = generate_signature "k" "b" "/a" [("_acsec", Value.str "X")] 5 :=
  ⟨by decide, rfl⟩

end Deribit
